import Mathlib

/-!
Shallow embedding of the dev-utils execution pipeline:

* `executeScript` (src/unnamed/part_007): parameter binding (lines 19-29),
  interpreter dispatch (lines 31-46), and the stream multiplexer / output
  sink built over `spawn` (lines 48-131), modelled as a small-step machine
  driven by a scheduler over the asynchronous events of the source
  (a resolved stdout read, a resolved stderr read, the continuation of
  `await proc.exited`, and a consumer-initiated stream cancellation).
* `logExecution` / `trimLogFile` (src/server/logger.ts), modelled at the
  granularity of lines: the source manipulates the log file via
  `split('\n')` / `join('\n')`, so a file is represented by its list of
  lines and string concatenation becomes `linesAppend` (which merges the
  last line of the file with the first line of the appended text).
-/

/-- Raw JavaScript values that can appear in the `params` record passed to
`executeScript`.  `undefined` (an absent key) is represented by `Option.none`
at use sites; `null` is the explicit JS `null`.  JS numbers are modelled as
integers, which is faithful for every textual form the claims exercise. -/
inductive Value where
  | str (s : String)
  | num (n : Int)
  | bool (b : Bool)
  | null
deriving DecidableEq, Repr

/-- Parameter types from `ScriptParam.type` (src/unnamed/part_006). -/
inductive ParamType where
  | string
  | number
  | boolean
  | select
deriving DecidableEq, Repr

/-- Execution context from `ScriptMetadata.context` (src/unnamed/part_006). -/
inductive ExecContext where
  | terminal
  | browser
deriving DecidableEq, Repr

/-- `ScriptParam` interface (src/unnamed/part_006). -/
structure ScriptParam where
  name : String
  type : ParamType
  required : Bool
  description : Option String
  options : List String
  defaultVal : Option Value
deriving DecidableEq, Repr

/-- `ScriptMetadata` interface (src/unnamed/part_006). -/
structure ScriptMetadata where
  name : String
  description : String
  category : String
  context : ExecContext
  params : List ScriptParam
  filePath : String
  fileName : String
deriving DecidableEq, Repr

/-- The presence test of `executeScript` lines 23 and 26: a value is missing
exactly when it is `undefined` (`none`), `null`, or the empty string, by
strict (`===`) comparison. -/
def isMissing : Option Value → Bool
  | none => true
  | some Value.null => true
  | some (Value.str "") => true
  | some _ => false

/-- JavaScript `String(value)` as applied on `executeScript` line 27 to the
values that can occur in the params record. -/
def jsOptToString : Option Value → String
  | none => "undefined"
  | some (Value.str s) => s
  | some (Value.num n) => toString n
  | some (Value.bool b) => cond b "true" "false"
  | some Value.null => "null"

/-- The argument-building loop of `executeScript` lines 19-29: walk the
declared parameters in order; throw (here: `Except.error` carrying the
parameter name, which the source interpolates into the thrown `Error`
message) at the first required parameter whose value is missing; push
`String(value)` for every present value; contribute nothing for an absent
optional value. -/
def buildArgs : List ScriptParam → List (String × Value) → Except String (List String)
  | [], _ => Except.ok []
  | p :: ps, raw =>
    let v := List.lookup p.name raw
    if p.required && isMissing v then
      Except.error p.name
    else
      Except.map (fun rest => if isMissing v then rest else jsOptToString v :: rest)
        (buildArgs ps raw)

/-- Specification-side rendering of the argument list, written from the
spec's words for the refinement claim about the binder: one entry per
declared parameter with a present value, in declaration order, each the
string form of the value; absent parameters contribute no placeholder. -/
def specArgs (ps : List ScriptParam) (raw : List (String × Value)) : List String :=
  ps.filterMap (fun p =>
    if isMissing (List.lookup p.name raw) then none
    else some (jsOptToString (List.lookup p.name raw)))

/-- The synchronous prefix of `executeScript` (lines 19-46): parameter
binding followed by interpreter dispatch on the file extension.  Returns the
full spawn command (`[command, ...cmdArgs]` of lines 49-50) or the error
thrown before any process is spawned. -/
def executeScript (script : ScriptMetadata) (raw : List (String × Value)) :
    Except String (List String) :=
  match buildArgs script.params raw with
  | Except.error e => Except.error ("Required parameter " ++ e ++ " is missing")
  | Except.ok args =>
    if script.fileName.endsWith ".sh" then
      Except.ok ("bash" :: script.filePath :: args)
    else if script.fileName.endsWith ".js" then
      Except.ok ("bun" :: "run" :: script.filePath :: args)
    else if script.fileName.endsWith ".ts" then
      Except.ok ("bun" :: "run" :: script.filePath :: args)
    else
      Except.error ("Unsupported script type: " ++ script.fileName)

/-! ### Incremental text decoding

The source creates one `TextDecoder` per stream and calls
`decoder.decode(value, { stream: true })` on every read, so decoder state
(the trailing bytes of an incomplete UTF-8 sequence) is preserved across
reads.  Bytes are modelled as `Nat` (values < 256). -/

/-- Length of the UTF-8 sequence introduced by a lead byte, or 0 for a byte
that cannot start a sequence. -/
def utf8SeqLen (b : Nat) : Nat :=
  if b < 0x80 then 1
  else if b < 0xC0 then 0
  else if b < 0xE0 then 2
  else if b < 0xF0 then 3
  else if b < 0xF8 then 4
  else 0

/-- Is `b` a UTF-8 continuation byte (`0x80 ≤ b < 0xC0`)? -/
def isContByte (b : Nat) : Bool :=
  if 0x80 ≤ b ∧ b < 0xC0 then true else false

/-- Assemble the code point of a UTF-8 sequence from its lead byte and
continuation bytes. -/
def utf8Assemble (b : Nat) (conts : List Nat) : Nat :=
  match conts with
  | [] => b
  | [b1] => (b - 0xC0) * 0x40 + (b1 - 0x80)
  | [b1, b2] => (b - 0xE0) * 0x1000 + (b1 - 0x80) * 0x40 + (b2 - 0x80)
  | [b1, b2, b3] =>
    (b - 0xF0) * 0x40000 + (b1 - 0x80) * 0x1000 + (b2 - 0x80) * 0x40 + (b3 - 0x80)
  | _ => 0xFFFD

/-- One pass of the streaming decoder: decode complete sequences from the
front, emit U+FFFD for malformed bytes (mirroring `TextDecoder`'s
non-fatal mode), and return an incomplete trailing sequence undecoded so it
can be carried to the next read.  `fuel` bounds recursion; callers pass the
input length, which suffices since every step consumes at least one byte or
stops. -/
def decodeLoop : Nat → List Nat → List Char × List Nat
  | 0, bs => ([], bs)
  | _ + 1, [] => ([], [])
  | fuel + 1, b :: bs =>
    let n := utf8SeqLen b
    if n = 0 then
      let r := decodeLoop fuel bs
      (Char.ofNat 0xFFFD :: r.1, r.2)
    else if bs.length + 1 < n then
      ([], b :: bs)
    else
      let conts := bs.take (n - 1)
      if conts.all isContByte then
        let r := decodeLoop fuel (bs.drop (n - 1))
        (Char.ofNat (utf8Assemble b conts) :: r.1, r.2)
      else
        let r := decodeLoop fuel bs
        (Char.ofNat 0xFFFD :: r.1, r.2)

/-- `decoder.decode(value, { stream: true })`: prepend the carried bytes of
the previous read, decode everything complete, and return the new carry
together with the decoded text. -/
def decodeChunk (carry input : List Nat) : List Nat × String :=
  let bs := carry ++ input
  let r := decodeLoop bs.length bs
  (r.2, List.asString r.1)

/-- UTF-8 encoding of one character. -/
def utf8EncodeChar (c : Char) : List Nat :=
  let n := c.toNat
  if n < 0x80 then [n]
  else if n < 0x800 then [0xC0 + n / 0x40, 0x80 + n % 0x40]
  else if n < 0x10000 then
    [0xE0 + n / 0x1000, 0x80 + (n / 0x40) % 0x40, 0x80 + n % 0x40]
  else
    [0xF0 + n / 0x40000, 0x80 + (n / 0x1000) % 0x40, 0x80 + (n / 0x40) % 0x40,
      0x80 + n % 0x40]

/-- UTF-8 encoding of a string ("re-encoding" the emitted text). -/
def utf8Encode (s : String) : List Nat :=
  s.data.foldr (fun c acc => utf8EncodeChar c ++ acc) []

/-! ### Execution ledger (src/server/logger.ts) -/

/-- `MAX_LINES` (logger.ts line 5). -/
def MAX_LINES : Nat := 35000

/-- One ledger record: the arguments of a `logExecution` call
(logger.ts lines 18-23).  A `cancelled` or error outcome passes no exit
code (`none`), which serializes as `N/A`. -/
structure LogRecord where
  script : String
  params : List (String × Value)
  output : List String
  exitCode : Option Int
deriving DecidableEq, Repr

/-- The `Exit Code:` field of a log entry: `exitCode ?? 'N/A'`
(logger.ts line 31). -/
def exitCodeText : Option Int → String
  | some n => toString n
  | none => "N/A"

/-- `JSON.stringify(params)` (logger.ts line 30), modelled up to string
escaping, which no claim depends on. -/
def renderParams (raw : List (String × Value)) : String :=
  let renderValue : Value → String := fun v =>
    match v with
    | Value.str s => "\"" ++ s ++ "\""
    | Value.num n => toString n
    | Value.bool b => cond b "true" "false"
    | Value.null => "null"
  let fields := raw.map (fun p => "\"" ++ p.1 ++ "\":" ++ renderValue p.2)
  "\x7b" ++ String.intercalate "," fields ++ "\x7d"

/-- A row of 80 repeated characters (logger.ts lines 28, 32, 34). -/
def sepRow (c : Char) : String :=
  String.mk (List.replicate 80 c)

/-- The `logLines` array built by `logExecution` (logger.ts lines 26-36):
the serialized form of one entry, as a list of lines.  `ts` is the ISO
timestamp string. -/
def serializeEntry (ts : String) (r : LogRecord) : List String :=
  ["", sepRow '=',
   "[" ++ ts ++ "] Executed: " ++ r.script,
   "Parameters: " ++ renderParams r.params,
   "Exit Code: " ++ exitCodeText r.exitCode,
   sepRow '-'] ++ r.output ++ [sepRow '=', ""]

/-- Appending text to the log file, at line granularity.  The file is its
`split('\n')` line list (`[]` for a not-yet-created file); appending string
`t` to file content `s` and re-splitting merges the last line of `s` with
the first line of `t`:
`(s ++ t).split('\n') = s.split.dropLast ++ [s.split.last ++ t.split.head] ++ t.split.tail`. -/
def linesAppend (file add : List String) : List String :=
  match file with
  | [] => add
  | _ => file.dropLast ++ (file.getLastD "" ++ add.headD "") :: add.drop 1

/-- `trimLogFile` (logger.ts lines 54-69) on the line list: if the line
count exceeds `MAX_LINES`, keep only the last `MAX_LINES` lines
(`lines.slice(-MAX_LINES)`), else leave the file unchanged. -/
def trimLogFile (lines : List String) : List String :=
  if lines.length > MAX_LINES then lines.drop (lines.length - MAX_LINES) else lines

/-- One append-plus-trim cycle of `logExecution` (logger.ts lines 40-45):
append the serialized entry, then trim. -/
def logCycle (ts : String) (file : List String) (r : LogRecord) : List String :=
  trimLogFile (linesAppend file (serializeEntry ts r))

/-- The log file contents after a sequence of `logExecution` calls, starting
from no file. -/
def runLog (ts : String) (rs : List LogRecord) : List String :=
  rs.foldl (logCycle ts) []

/-- The untrimmed concatenation of a sequence of serialized entries (what
the file would hold if no trim ever ran). -/
def concatEntries (ts : String) (rs : List LogRecord) : List String :=
  rs.foldl (fun acc r => linesAppend acc (serializeEntry ts r)) []

/-! ### Stream multiplexer / output sink (src/unnamed/part_007, lines 48-131)

The source runs three asynchronous tasks over one `ReadableStream`
controller: a stdout reader loop (lines 69-81), a stderr reader loop
(lines 89-101), and the main continuation that resumes when
`await proc.exited` settles (lines 104-121); the consumer may additionally
cancel the stream (lines 123-128).  JavaScript executes each continuation
atomically between `await` points, so the pipeline is a transition system
whose steps are these four continuations; a schedule is a list of events.
`proc.exited` can resolve while reads are still pending (the child can exit
with data still buffered in its pipes), so the `procEnd` event is enabled
independently of the pending reads.

Web-streams semantics used by the transitions: `controller.enqueue` on a
stream that is already closed or cancelled throws a `TypeError`; a
consumer cancellation closes the stream before invoking the underlying
`cancel()`; the underlying `cancel()` is not invoked when the stream is
already closed. -/

/-- Provenance of an enqueued chunk (ghost annotation; the payload text is
exactly what the source enqueues). -/
inductive Origin where
  | stdout
  | stderr
  | exitNote
deriving DecidableEq, Repr

/-- One chunk enqueued on the output stream. -/
structure Chunk where
  origin : Origin
  text : String
deriving DecidableEq, Repr

/-- Scheduler events: a resolved stdout read, a resolved stderr read, the
main continuation after `await proc.exited`, and a consumer cancellation. -/
inductive Ev where
  | readOut
  | readErr
  | procEnd
  | cancel
deriving DecidableEq, Repr

/-- Static data of one execution: the identity logged to the ledger, the
child's exit code, and the byte chunks each child stream delivers per read
(end-of-stream after the last). -/
structure ExecConfig where
  scriptName : String
  params : List (String × Value)
  exitCode : Int
  outReads : List (List Nat)
  errReads : List (List Nat)
deriving DecidableEq, Repr

/-- Mutable state of one execution: pending reads and decoder carry per
stream, whether each reader loop is still running, the chunks successfully
enqueued, the `outputLines` capture buffer, the stream state, whether the
main continuation already ran, whether `proc.kill()` was called, and the
ledger records written. -/
structure ExecState where
  outPending : List (List Nat)
  errPending : List (List Nat)
  outCarry : List Nat
  errCarry : List Nat
  outAlive : Bool
  errAlive : Bool
  emitted : List Chunk
  outputLines : List String
  streamOpen : Bool
  mainDone : Bool
  killed : Bool
  logs : List LogRecord
deriving DecidableEq, Repr

/-- Initial state, as set up by lines 48-61 of the source. -/
def initState (cfg : ExecConfig) : ExecState :=
  { outPending := cfg.outReads
    errPending := cfg.errReads
    outCarry := []
    errCarry := []
    outAlive := true
    errAlive := true
    emitted := []
    outputLines := []
    streamOpen := true
    mainDone := false
    killed := false
    logs := [] }

/-- The synthetic trailer enqueued by line 106. -/
def exitMessage (code : Int) : String :=
  "\n[Process exited with code " ++ toString code ++ "]\n"

/-- The chunk recorded by the catch block (lines 113-121) after
`controller.enqueue` throws on a closed stream; its own re-enqueue at line
116 throws again, so the catch block aborts before line 120. -/
def enqueueErrorMessage : String :=
  "\n[Error: TypeError: stream is closed]\n"

/-- The closing chunk pushed by the cancellation handler (line 126). -/
def killedMessage : String :=
  "[Process killed by user]"

/-- One transition of the pipeline.  Each branch is the atomic continuation
the source runs for that event; see the section comment for the web-streams
behaviour of `enqueue` and `cancel` that the closed-stream branches encode. -/
def step (cfg : ExecConfig) (s : ExecState) : Ev → ExecState
  | Ev.readOut =>
    -- Lines 71-77: one `reader.read()` resolution on stdout.
    if s.outAlive then
      match s.outPending with
      | [] => s
      | b :: rest =>
        let d := decodeChunk s.outCarry b
        if s.streamOpen then
          { s with outPending := rest, outCarry := d.1,
                   outputLines := s.outputLines ++ [d.2],
                   emitted := s.emitted ++ [⟨Origin.stdout, d.2⟩] }
        else
          -- `outputLines.push` happened (line 75); `enqueue` (line 76)
          -- throws on the closed stream, the catch ends the loop.
          { s with outPending := rest, outCarry := d.1,
                   outputLines := s.outputLines ++ [d.2],
                   outAlive := false }
    else s
  | Ev.readErr =>
    -- Lines 91-97: one `reader.read()` resolution on stderr; the decoded
    -- fragment is tagged before push and enqueue (line 94).
    if s.errAlive then
      match s.errPending with
      | [] => s
      | b :: rest =>
        let d := decodeChunk s.errCarry b
        let text := "[stderr] " ++ d.2
        if s.streamOpen then
          { s with errPending := rest, errCarry := d.1,
                   outputLines := s.outputLines ++ [text],
                   emitted := s.emitted ++ [⟨Origin.stderr, text⟩] }
        else
          { s with errPending := rest, errCarry := d.1,
                   outputLines := s.outputLines ++ [text],
                   errAlive := false }
    else s
  | Ev.procEnd =>
    -- Lines 104-121: the continuation after `await proc.exited`.
    if s.mainDone then s
    else
      let msg := exitMessage cfg.exitCode
      if s.streamOpen then
        -- Lines 106-112: push + enqueue the trailer, close, log once.
        { s with mainDone := true
                 streamOpen := false
                 outputLines := s.outputLines ++ [msg]
                 emitted := s.emitted ++ [⟨Origin.exitNote, msg⟩]
                 logs := s.logs ++
                   [{ script := cfg.scriptName, params := cfg.params,
                      output := s.outputLines ++ [msg],
                      exitCode := some cfg.exitCode }] }
      else
        -- The stream was cancelled first: the enqueue at line 108 throws,
        -- the catch pushes its error chunk (line 115) and its own enqueue
        -- (line 116) throws again, so the second `logExecution` (line 120)
        -- is never reached.
        { s with mainDone := true
                 outputLines := s.outputLines ++ [msg, enqueueErrorMessage] }
  | Ev.cancel =>
    -- Lines 123-128: consumer cancellation.  The underlying `cancel()` is
    -- only invoked while the stream is still open; it kills the child,
    -- pushes the closing chunk, and logs with no exit code.
    if s.streamOpen then
      { s with streamOpen := false
               killed := true
               outputLines := s.outputLines ++ [killedMessage]
               logs := s.logs ++
                 [{ script := cfg.scriptName, params := cfg.params,
                    output := s.outputLines ++ [killedMessage],
                    exitCode := none }] }
    else s

/-- Run the pipeline under a schedule. -/
def runExec (cfg : ExecConfig) (sched : List Ev) : ExecState :=
  sched.foldl (step cfg) (initState cfg)

/-- Concatenated text of the stdout-origin chunks enqueued on the stream. -/
def stdoutEmitted (s : ExecState) : String :=
  String.join ((s.emitted.filter (fun c => c.origin == Origin.stdout)).map Chunk.text)

/-- All bytes the child wrote to stdout. -/
def childStdoutBytes (cfg : ExecConfig) : List Nat :=
  cfg.outReads.foldr (fun b acc => b ++ acc) []

/-- Observable side effects of one execution request. -/
inductive Effect where
  | spawned (cmd : List String)
  | ledger (r : LogRecord)
deriving DecidableEq, Repr

/-- A whole request: the synchronous prefix of `executeScript` (validation
and dispatch) followed, only on success, by the spawn and the scheduled run
of the stream pipeline.  Returns every side effect in order. -/
def runRequest (script : ScriptMetadata) (raw : List (String × Value))
    (exitCode : Int) (outReads errReads : List (List Nat)) (sched : List Ev) :
    List Effect :=
  match executeScript script raw with
  | Except.error _ => []
  | Except.ok cmd =>
    let cfg : ExecConfig :=
      { scriptName := script.name, params := raw, exitCode := exitCode,
        outReads := outReads, errReads := errReads }
    Effect.spawned cmd :: (runExec cfg sched).logs.map Effect.ledger

/-! ### Helper lemmas: parameter binder -/

lemma except_map_eq_error {ε α β : Type} (f : α → β) (x : Except ε α) (e : ε) :
    Except.map f x = Except.error e ↔ x = Except.error e := by
  cases x <;> simp [Except.map]

lemma ba_cons_true (p : ScriptParam) (ps : List ScriptParam)
    (raw : List (String × Value))
    (h : (p.required && isMissing (List.lookup p.name raw)) = true) :
    buildArgs (p :: ps) raw = Except.error p.name := by
  simp [buildArgs, h]

lemma ba_cons_false_error (p : ScriptParam) (ps : List ScriptParam)
    (raw : List (String × Value)) (e : String)
    (h : (p.required && isMissing (List.lookup p.name raw)) = false) :
    (buildArgs (p :: ps) raw = Except.error e ↔ buildArgs ps raw = Except.error e) := by
  simp [buildArgs, h, except_map_eq_error]

lemma ba_error_iff (ps : List ScriptParam) (raw : List (String × Value)) :
    (∃ e, buildArgs ps raw = Except.error e) ↔
      ∃ p ∈ ps, p.required = true ∧ isMissing (List.lookup p.name raw) = true := by
  induction ps with
  | nil => simp [buildArgs]
  | cons p ps ih =>
    cases h : (p.required && isMissing (List.lookup p.name raw)) with
    | true =>
      have hp : p.required = true ∧ isMissing (List.lookup p.name raw) = true := by
        simpa using h
      rw [ba_cons_true p ps raw h]
      constructor
      · intro _; exact ⟨p, List.mem_cons_self _ _, hp.1, hp.2⟩
      · intro _; exact ⟨p.name, rfl⟩
    | false =>
      have hp : ¬(p.required = true ∧ isMissing (List.lookup p.name raw) = true) := by
        intro hc
        simp [hc.1, hc.2] at h
      constructor
      · intro ⟨e, he⟩
        obtain ⟨q, hq, hreq, hmiss⟩ :=
          ih.mp ⟨e, (ba_cons_false_error p ps raw e h).mp he⟩
        exact ⟨q, List.mem_cons_of_mem _ hq, hreq, hmiss⟩
      · intro ⟨q, hq, hreq, hmiss⟩
        rcases List.mem_cons.mp hq with hqp | hq
        · exact absurd ⟨hqp ▸ hreq, hqp ▸ hmiss⟩ hp
        · obtain ⟨e, he⟩ := ih.mpr ⟨q, hq, hreq, hmiss⟩
          exact ⟨e, (ba_cons_false_error p ps raw e h).mpr he⟩

lemma ba_error_names (ps : List ScriptParam) (raw : List (String × Value)) (e : String) :
    buildArgs ps raw = Except.error e →
      ∃ p ∈ ps, p.name = e ∧ p.required = true ∧
        isMissing (List.lookup p.name raw) = true := by
  induction ps with
  | nil => simp [buildArgs]
  | cons p ps ih =>
    cases h : (p.required && isMissing (List.lookup p.name raw)) with
    | true =>
      rw [ba_cons_true p ps raw h]
      intro he
      have hp : p.required = true ∧ isMissing (List.lookup p.name raw) = true := by
        simpa using h
      exact ⟨p, List.mem_cons_self _ _, (Except.error.injEq _ _).mp he, hp.1, hp.2⟩
    | false =>
      intro he
      obtain ⟨q, hq, hname, hreq, hmiss⟩ :=
        ih ((ba_cons_false_error p ps raw e h).mp he)
      exact ⟨q, List.mem_cons_of_mem _ hq, hname, hreq, hmiss⟩

lemma ba_ok_of_sat (ps : List ScriptParam) (raw : List (String × Value))
    (h : ∀ p ∈ ps, p.required = true → isMissing (List.lookup p.name raw) = false) :
    buildArgs ps raw = Except.ok (specArgs ps raw) := by
  induction ps with
  | nil => simp [buildArgs, specArgs]
  | cons p ps ih =>
    have hguard : (p.required && isMissing (List.lookup p.name raw)) = false := by
      cases hr : p.required with
      | false => simp
      | true => simp [h p (List.mem_cons_self _ _) hr]
    have ihh := ih (fun q hq => h q (List.mem_cons_of_mem _ hq))
    by_cases hm : isMissing (List.lookup p.name raw) = true
    · have hr : p.required = false := by
        cases hr : p.required with
        | false => rfl
        | true => rw [hr, hm] at hguard; simp at hguard
      simp [buildArgs, hguard, hr, ihh, Except.map, specArgs, List.filterMap_cons, hm]
    · simp only [Bool.not_eq_true] at hm
      simp [buildArgs, hguard, ihh, Except.map, specArgs, List.filterMap_cons, hm]

lemma specArgs_length (ps : List ScriptParam) (raw : List (String × Value)) :
    (specArgs ps raw).length =
      (ps.filter (fun p => !isMissing (List.lookup p.name raw))).length := by
  induction ps with
  | nil => simp [specArgs]
  | cons p ps ih =>
    by_cases hm : isMissing (List.lookup p.name raw) = true
    · simp only [specArgs, List.filterMap_cons, List.filter_cons] at *
      simp [hm, ih]
    · simp only [Bool.not_eq_true] at hm
      simp only [specArgs, List.filterMap_cons, List.filter_cons] at *
      simp [hm, ih]

/-! ### Claims about the parameter binder -/

/-- Claim C3: for every script descriptor and raw parameter mapping,
parameter binding fails with a missing-required-parameter error naming the
parameter if and only if some parameter spec marked required has a value
that is absent (undefined), null, or the empty string in the mapping. -/
theorem missing_required_error_iff (ps : List ScriptParam) (raw : List (String × Value)) :
    ((∃ e, buildArgs ps raw = Except.error e) ↔
      ∃ p ∈ ps, p.required = true ∧ isMissing (List.lookup p.name raw) = true) ∧
    (∀ e, buildArgs ps raw = Except.error e →
      ∃ p ∈ ps, p.name = e ∧ p.required = true ∧
        isMissing (List.lookup p.name raw) = true) :=
  ⟨ba_error_iff ps raw, fun e he => ba_error_names ps raw e he⟩

/-- Fixture: a required string parameter. -/
def wParamName : ScriptParam := ⟨"name", ParamType.string, true, none, [], none⟩

/-- Fixture: an optional string parameter. -/
def wParamOpt : ScriptParam := ⟨"greeting", ParamType.string, false, none, [], none⟩

/-- Fixture: a required boolean parameter. -/
def wParamFlag : ScriptParam := ⟨"flag", ParamType.boolean, true, none, [], none⟩

/-- Witness for C3 at a concrete descriptor and mapping: binding fails and
the error names the required parameter whose value is the empty string. -/
theorem missing_required_error_iff_witness :
    buildArgs [wParamName] [("name", Value.str "")] = Except.error "name" ∧
    ∃ p ∈ [wParamName], p.name = "name" ∧ p.required = true ∧
      isMissing (List.lookup p.name [("name", Value.str "")]) = true :=
  ⟨rfl, (missing_required_error_iff [wParamName] [("name", Value.str "")]).2
    "name" rfl⟩

/-- Claim C4: when every required parameter has a present value, the binder
returns exactly the present values stringified in declaration order, with no
placeholder for absent optionals, and the list length is the number of
declared parameters with a present value. -/
theorem binder_renders_present_params (ps : List ScriptParam)
    (raw : List (String × Value))
    (h : ∀ p ∈ ps, p.required = true → isMissing (List.lookup p.name raw) = false) :
    buildArgs ps raw = Except.ok (specArgs ps raw) ∧
    (specArgs ps raw).length =
      (ps.filter (fun p => !isMissing (List.lookup p.name raw))).length :=
  ⟨ba_ok_of_sat ps raw h, specArgs_length ps raw⟩

/-- Witness for C4: a required string, a required boolean, and an absent
optional bind to exactly the two present values, in declaration order. -/
theorem binder_renders_present_params_witness :
    (∀ p ∈ [wParamName, wParamFlag, wParamOpt], p.required = true →
      isMissing (List.lookup p.name
        [("name", Value.str "Ada"), ("flag", Value.bool true)]) = false) ∧
    (buildArgs [wParamName, wParamFlag, wParamOpt]
        [("name", Value.str "Ada"), ("flag", Value.bool true)] =
      Except.ok (specArgs [wParamName, wParamFlag, wParamOpt]
        [("name", Value.str "Ada"), ("flag", Value.bool true)]) ∧
      (specArgs [wParamName, wParamFlag, wParamOpt]
        [("name", Value.str "Ada"), ("flag", Value.bool true)]).length =
      ([wParamName, wParamFlag, wParamOpt].filter (fun p =>
        !isMissing (List.lookup p.name
          [("name", Value.str "Ada"), ("flag", Value.bool true)]))).length) :=
  ⟨by decide, binder_renders_present_params _ _ (by decide)⟩

/-- Claim C10: presence is decided by strict comparison against undefined,
null and the empty string only, so the boolean `false` and the number `0`
count as present: a required parameter supplied as `false` or `0` passes
validation and is rendered as `"false"` or `"0"` rather than skipped. -/
theorem false_and_zero_count_present (p : ScriptParam) (raw : List (String × Value)) :
    (List.lookup p.name raw = some (Value.bool false) →
      isMissing (List.lookup p.name raw) = false ∧
      buildArgs [p] raw = Except.ok ["false"]) ∧
    (List.lookup p.name raw = some (Value.num 0) →
      isMissing (List.lookup p.name raw) = false ∧
      buildArgs [p] raw = Except.ok ["0"]) := by
  constructor
  · intro h
    refine ⟨by simp [h, isMissing], ?_⟩
    simp [buildArgs, h, isMissing, jsOptToString, Except.map]
  · intro h
    refine ⟨by simp [h, isMissing], ?_⟩
    simp [buildArgs, h, isMissing, jsOptToString, Except.map]
    rfl

/-- Witness for C10: a required boolean supplied as `false` binds to
`["false"]`. -/
theorem false_and_zero_count_present_witness :
    List.lookup wParamFlag.name [("flag", Value.bool false)] =
      some (Value.bool false) ∧
    (isMissing (List.lookup wParamFlag.name [("flag", Value.bool false)]) = false ∧
      buildArgs [wParamFlag] [("flag", Value.bool false)] = Except.ok ["false"]) :=
  ⟨rfl, (false_and_zero_count_present wParamFlag [("flag", Value.bool false)]).1 rfl⟩

/-- Fixture: a shell script declaring one required parameter. -/
def wScript : ScriptMetadata :=
  ⟨"Demo", "demo script", "development", ExecContext.terminal, [wParamName],
    "/scripts/demo.sh", "demo.sh"⟩

/-- Claim C5: an execution request that fails parameter validation fails
synchronously before any child process is spawned and before any ledger
write: the request produces no side effects at all, under every schedule. -/
theorem validation_failure_no_spawn_no_ledger (script : ScriptMetadata)
    (raw : List (String × Value)) (exitCode : Int)
    (outReads errReads : List (List Nat)) (sched : List Ev)
    (h : ∃ p ∈ script.params, p.required = true ∧
      isMissing (List.lookup p.name raw) = true) :
    runRequest script raw exitCode outReads errReads sched = [] := by
  obtain ⟨e, he⟩ := (ba_error_iff script.params raw).mpr h
  simp [runRequest, executeScript, he]

/-- Witness for C5: requesting the demo script with an empty parameter
mapping produces no spawn and no ledger record. -/
theorem validation_failure_no_spawn_no_ledger_witness :
    (∃ p ∈ wScript.params, p.required = true ∧
      isMissing (List.lookup p.name ([] : List (String × Value))) = true) ∧
    runRequest wScript [] 0 [] [] [Ev.procEnd] = [] :=
  ⟨⟨wParamName, by decide, by decide, by decide⟩,
    validation_failure_no_spawn_no_ledger wScript [] 0 [] [] [Ev.procEnd]
      ⟨wParamName, by decide, by decide, by decide⟩⟩

/-! ### Helper lemmas: the stream pipeline -/

/-- No chunk of `l` is the synthetic exit trailer. -/
def noExitChunks (l : List Chunk) : Prop :=
  ∀ c ∈ l, c.origin ≠ Origin.exitNote

lemma noExitChunks_append_single {l : List Chunk} {c : Chunk}
    (hl : noExitChunks l) (hc : c.origin ≠ Origin.exitNote) :
    noExitChunks (l ++ [c]) := by
  intro x hx
  rcases List.mem_append.mp hx with h | h
  · exact hl x h
  · rw [List.mem_singleton.mp h]; exact hc

/-- Every transition of the pipeline has one of four shapes: it leaves the
stream chunks, stream state and ledger untouched; or, on an open stream, it
enqueues one non-exit chunk; or it enqueues the exit trailer, closes the
stream and writes the completion record; or it closes the stream without
enqueueing and writes the cancellation record. -/
lemma step_shape (cfg : ExecConfig) (s : ExecState) (e : Ev) :
    ((step cfg s e).emitted = s.emitted ∧ (step cfg s e).streamOpen = s.streamOpen ∧
      (step cfg s e).logs = s.logs) ∨
    (s.streamOpen = true ∧ (step cfg s e).streamOpen = true ∧
      (∃ c, c.origin ≠ Origin.exitNote ∧ (step cfg s e).emitted = s.emitted ++ [c]) ∧
      (step cfg s e).logs = s.logs) ∨
    (s.streamOpen = true ∧ (step cfg s e).streamOpen = false ∧
      (step cfg s e).emitted =
        s.emitted ++ [⟨Origin.exitNote, exitMessage cfg.exitCode⟩] ∧
      (step cfg s e).logs = s.logs ++
        [{ script := cfg.scriptName, params := cfg.params,
           output := s.outputLines ++ [exitMessage cfg.exitCode],
           exitCode := some cfg.exitCode }]) ∨
    (s.streamOpen = true ∧ (step cfg s e).streamOpen = false ∧
      (step cfg s e).emitted = s.emitted ∧
      (step cfg s e).logs = s.logs ++
        [{ script := cfg.scriptName, params := cfg.params,
           output := s.outputLines ++ [killedMessage], exitCode := none }]) := by
  cases e with
  | readOut =>
    by_cases ha : s.outAlive = true
    · cases hp : s.outPending with
      | nil => left; simp [step, ha, hp]
      | cons b rest =>
        by_cases ho : s.streamOpen = true
        · right; left
          exact ⟨ho, by simp [step, ha, hp, ho],
            ⟨⟨Origin.stdout, (decodeChunk s.outCarry b).2⟩, by simp,
              by simp [step, ha, hp, ho]⟩, by simp [step, ha, hp, ho]⟩
        · left; simp [step, ha, hp, ho]
    · left; simp [step, ha]
  | readErr =>
    by_cases ha : s.errAlive = true
    · cases hp : s.errPending with
      | nil => left; simp [step, ha, hp]
      | cons b rest =>
        by_cases ho : s.streamOpen = true
        · right; left
          exact ⟨ho, by simp [step, ha, hp, ho],
            ⟨⟨Origin.stderr, "[stderr] " ++ (decodeChunk s.errCarry b).2⟩, by simp,
              by simp [step, ha, hp, ho]⟩, by simp [step, ha, hp, ho]⟩
        · left; simp [step, ha, hp, ho]
    · left; simp [step, ha]
  | procEnd =>
    by_cases hm : s.mainDone = true
    · left; simp [step, hm]
    · by_cases ho : s.streamOpen = true
      · right; right; left
        exact ⟨ho, by simp [step, hm, ho], by simp [step, hm, ho],
          by simp [step, hm, ho]⟩
      · left; simp [step, hm, ho]
  | cancel =>
    by_cases ho : s.streamOpen = true
    · right; right; right
      exact ⟨ho, by simp [step, ho], by simp [step, ho], by simp [step, ho]⟩
    · left; simp [step, ho]

/-- The C1 invariant: while the stream is open no exit trailer has been
enqueued, and at all times the chunk sequence is either exit-free or ends
with the exit trailer, with no exit trailer anywhere before. -/
def ExitLastInv (cfg : ExecConfig) (s : ExecState) : Prop :=
  (s.streamOpen = true → noExitChunks s.emitted) ∧
  (noExitChunks s.emitted ∨
    ∃ l, s.emitted = l ++ [⟨Origin.exitNote, exitMessage cfg.exitCode⟩] ∧
      noExitChunks l)

/-- The C6 invariant: an open stream has no ledger record yet; a closed
stream has exactly one. -/
def LogOnceInv (s : ExecState) : Prop :=
  (s.streamOpen = true → s.logs = []) ∧
  (s.streamOpen = false → s.logs.length = 1)

lemma runExec_preserves {cfg : ExecConfig} (P : ExecState → Prop)
    (h0 : P (initState cfg)) (hstep : ∀ s e, P s → P (step cfg s e))
    (sched : List Ev) : P (runExec cfg sched) := by
  suffices h : ∀ l s, P s → P (List.foldl (step cfg) s l) from h sched _ h0
  intro l
  induction l with
  | nil => intro s hs; exact hs
  | cons e l ih => intro s hs; exact ih _ (hstep s e hs)

lemma exitLastInv_step (cfg : ExecConfig) (s : ExecState) (e : Ev)
    (inv : ExitLastInv cfg s) : ExitLastInv cfg (step cfg s e) := by
  rcases step_shape cfg s e with
    ⟨he, ho, _⟩ | ⟨hso, ho, ⟨c, hc, he⟩, _⟩ | ⟨hso, ho, he, _⟩ | ⟨hso, ho, he, _⟩
  · exact ⟨fun h => he ▸ inv.1 (ho ▸ h), by rw [he]; exact inv.2⟩
  · refine ⟨fun _ => ?_, Or.inl ?_⟩ <;>
      (rw [he]; exact noExitChunks_append_single (inv.1 hso) hc)
  · refine ⟨fun h => absurd h (by rw [ho]; simp), Or.inr ?_⟩
    exact ⟨s.emitted, he, inv.1 hso⟩
  · exact ⟨fun h => absurd h (by rw [ho]; simp), by rw [he]; exact inv.2⟩

lemma exitLastInv_run (cfg : ExecConfig) (sched : List Ev) :
    ExitLastInv cfg (runExec cfg sched) := by
  refine runExec_preserves _ ?_ (exitLastInv_step cfg) sched
  constructor
  · intro _ c hc
    simp [initState] at hc
  · left; intro c hc
    simp [initState] at hc

lemma logOnceInv_step (cfg : ExecConfig) (s : ExecState) (e : Ev)
    (inv : LogOnceInv s) : LogOnceInv (step cfg s e) := by
  rcases step_shape cfg s e with
    ⟨_, ho, hl⟩ | ⟨hso, ho, _, hl⟩ | ⟨hso, ho, _, hl⟩ | ⟨hso, ho, _, hl⟩
  · exact ⟨fun h => hl ▸ inv.1 (ho ▸ h), fun h => hl ▸ inv.2 (ho ▸ h)⟩
  · exact ⟨fun _ => hl ▸ inv.1 hso, fun h => absurd h (by rw [ho]; simp)⟩
  · refine ⟨fun h => absurd h (by rw [ho]; simp), fun _ => ?_⟩
    rw [hl, inv.1 hso]
    rfl
  · refine ⟨fun h => absurd h (by rw [ho]; simp), fun _ => ?_⟩
    rw [hl, inv.1 hso]
    rfl

lemma logOnceInv_run (cfg : ExecConfig) (sched : List Ev) :
    LogOnceInv (runExec cfg sched) := by
  refine runExec_preserves _ ?_ (logOnceInv_step cfg) sched
  exact ⟨fun _ => rfl, fun h => by simp [initState] at h⟩

/-! ### Claims about the stream pipeline -/

/-- Claim C1: under every schedule, the synthetic
`[Process exited with code N]` chunk, when it is enqueued at all, is the
last chunk on the output stream: the enqueue of the trailer and the close
of the stream form one atomic continuation, and any enqueue attempted after
the close throws and delivers nothing, so no stdout- or stderr-derived
chunk ever follows the trailer. -/
theorem exit_chunk_is_last (cfg : ExecConfig) (sched : List Ev) :
    (∀ c ∈ (runExec cfg sched).emitted, c.origin ≠ Origin.exitNote) ∨
    (∃ l, (runExec cfg sched).emitted =
        l ++ [⟨Origin.exitNote, exitMessage cfg.exitCode⟩] ∧
      ∀ c ∈ l, c.origin ≠ Origin.exitNote) :=
  (exitLastInv_run cfg sched).2

/-- Claim C6: under every schedule, `logExecution` is invoked at most once,
and exactly once when the execution has reached its terminal state (the
stream was closed, by completion or cancellation): a cancelled execution
never gains a second record from the completion path, because the
completion continuation's enqueue on the closed stream throws before its
`logExecution` call is reached. -/
theorem ledger_logged_exactly_once (cfg : ExecConfig) (sched : List Ev) :
    (runExec cfg sched).logs.length ≤ 1 ∧
    ((runExec cfg sched).logs.length = 1 ↔ (runExec cfg sched).streamOpen = false) := by
  have inv := logOnceInv_run cfg sched
  cases ho : (runExec cfg sched).streamOpen with
  | true =>
    rw [inv.1 ho]
    simp
  | false =>
    rw [inv.2 ho]
    simp

/-- Claim C9: when the consumer cancels the stream while it is still open,
the cancellation handler kills the child process, appends the
`[Process killed by user]` chunk to the captured output, and writes exactly
one ledger record for the execution, carrying no exit code — which the
ledger serializes as `Exit Code: N/A`. -/
theorem cancel_kills_and_logs_cancelled (cfg : ExecConfig) (s : ExecState)
    (ts : String) (h : s.streamOpen = true) :
    (step cfg s Ev.cancel).killed = true ∧
    (step cfg s Ev.cancel).streamOpen = false ∧
    (step cfg s Ev.cancel).outputLines = s.outputLines ++ [killedMessage] ∧
    (step cfg s Ev.cancel).logs = s.logs ++
      [{ script := cfg.scriptName, params := cfg.params,
         output := s.outputLines ++ [killedMessage], exitCode := none }] ∧
    "Exit Code: N/A" ∈ serializeEntry ts
      { script := cfg.scriptName, params := cfg.params,
        output := s.outputLines ++ [killedMessage], exitCode := none } := by
  refine ⟨by simp [step, h], by simp [step, h], by simp [step, h],
    by simp [step, h], ?_⟩
  have : "Exit Code: " ++ exitCodeText none = "Exit Code: N/A" := rfl
  simp [serializeEntry, exitCodeText]

/-- Fixture: an execution configuration with one pending stdout read
holding the UTF-8 bytes of `"hi"` and one pending stderr read. -/
def wCfg : ExecConfig := ⟨"demo", [], 0, [[104, 105]], [[33]]⟩

/-- Witness for C9: cancelling the freshly started demo execution kills the
child and writes the `N/A` record. -/
theorem cancel_kills_and_logs_cancelled_witness :
    (initState wCfg).streamOpen = true ∧
    ((step wCfg (initState wCfg) Ev.cancel).killed = true ∧
      (step wCfg (initState wCfg) Ev.cancel).streamOpen = false ∧
      (step wCfg (initState wCfg) Ev.cancel).outputLines =
        (initState wCfg).outputLines ++ [killedMessage] ∧
      (step wCfg (initState wCfg) Ev.cancel).logs = (initState wCfg).logs ++
        [{ script := wCfg.scriptName, params := wCfg.params,
           output := (initState wCfg).outputLines ++ [killedMessage],
           exitCode := none }] ∧
      "Exit Code: N/A" ∈ serializeEntry "2024-01-01T00:00:00.000Z"
        { script := wCfg.scriptName, params := wCfg.params,
          output := (initState wCfg).outputLines ++ [killedMessage],
          exitCode := none }) :=
  ⟨rfl, cancel_kills_and_logs_cancelled wCfg (initState wCfg)
    "2024-01-01T00:00:00.000Z" rfl⟩

/-- Claim C2 fails on the code: `await proc.exited` can resolve while a
stdout read is still pending (the child exits with data still buffered in
the pipe), and the source closes the stream immediately after enqueueing
the exit trailer without joining the reader loops, so the buffered bytes
are never enqueued — the reader's late `enqueue` throws on the closed
stream.  Here the child wrote the bytes of `"hello"` to stdout, yet the
concatenated stdout-origin chunks re-encode to the empty byte sequence. -/
theorem buffered_stdout_dropped_after_exit :
    childStdoutBytes ⟨"demo", [], 0, [[104, 101, 108, 108, 111]], []⟩ =
      [104, 101, 108, 108, 111] ∧
    stdoutEmitted (runExec ⟨"demo", [], 0, [[104, 101, 108, 108, 111]], []⟩
      [Ev.procEnd, Ev.readOut]) = "" ∧
    utf8Encode (stdoutEmitted (runExec ⟨"demo", [], 0, [[104, 101, 108, 108, 111]], []⟩
      [Ev.procEnd, Ev.readOut])) ≠
      childStdoutBytes ⟨"demo", [], 0, [[104, 101, 108, 108, 111]], []⟩ := by
  refine ⟨rfl, ?_, ?_⟩ <;> decide

/-! ### Helper lemmas: the ledger file -/

lemma linesAppend_nil (add : List String) : linesAppend [] add = add := rfl

lemma linesAppend_cons (f : String) (fs add : List String) :
    linesAppend (f :: fs) add =
      (f :: fs).dropLast ++ ((f :: fs).getLastD "" ++ add.headD "") :: add.drop 1 := rfl

lemma getLastD_append_any (t : List String) {xs : List String} (h : xs ≠ []) (d : String) :
    (t ++ xs).getLastD d = xs.getLastD "" := by
  rw [List.getLastD_eq_getLast?, List.getLastD_eq_getLast?, List.getLast?_append]
  cases hx : xs.getLast? with
  | none => exact absurd (List.getLast?_eq_none_iff.mp hx) h
  | some a => simp

lemma linesAppend_append_left (t : List String) {xs : List String} (add : List String)
    (h : xs ≠ []) :
    linesAppend (t ++ xs) add = t ++ linesAppend xs add := by
  obtain ⟨b, L, rfl⟩ := List.exists_cons_of_ne_nil h
  cases t with
  | nil => simp
  | cons a t =>
    have hmid : t ++ b :: L ≠ [] := by simp
    calc linesAppend ((a :: t) ++ b :: L) add
        = linesAppend (a :: (t ++ b :: L)) add := by rw [List.cons_append]
      _ = (a :: (t ++ b :: L)).dropLast ++
            ((a :: (t ++ b :: L)).getLastD "" ++ add.headD "") :: add.drop 1 :=
          linesAppend_cons _ _ _
      _ = (a :: t) ++ (b :: L).dropLast ++
            ((b :: L).getLastD "" ++ add.headD "") :: add.drop 1 := by
          rw [List.dropLast_cons_of_ne_nil hmid, List.getLastD_cons,
            List.dropLast_append_of_ne_nil t (show (b :: L) ≠ [] by simp),
            getLastD_append_any t (show (b :: L) ≠ [] by simp) a]
          simp [List.append_assoc]
      _ = (a :: t) ++ linesAppend (b :: L) add := by
          rw [linesAppend_cons]
          simp [List.append_assoc]

lemma trimLogFile_suffix (xs : List String) : trimLogFile xs <:+ xs := by
  unfold trimLogFile
  split
  · exact List.drop_suffix _ _
  · exact List.suffix_refl _

lemma trimLogFile_ne_nil {xs : List String} (h : xs ≠ []) : trimLogFile xs ≠ [] := by
  unfold trimLogFile
  split
  · rename_i hlen
    intro hc
    have hl := congrArg List.length hc
    rw [List.length_drop] at hl
    simp only [List.length_nil] at hl
    unfold MAX_LINES at hlen hl
    omega
  · exact h

lemma linesAppend_ne_nil {file add : List String} (h : add ≠ []) :
    linesAppend file add ≠ [] := by
  cases file with
  | nil => exact h
  | cons f fs => simp [linesAppend]

lemma linesAppend_suffix {xs ys : List String} (add : List String)
    (hsuf : xs <:+ ys) (hnil : xs = [] → ys = []) :
    linesAppend xs add <:+ linesAppend ys add := by
  cases xs with
  | nil =>
    rw [hnil rfl]
  | cons x xs' =>
    obtain ⟨t, ht⟩ := hsuf
    rw [← ht, linesAppend_append_left t add (by simp)]
    exact ⟨t, rfl⟩

lemma serializeEntry_ne_nil (ts : String) (r : LogRecord) : serializeEntry ts r ≠ [] := by
  simp [serializeEntry]

lemma serializeEntry_length (ts : String) (r : LogRecord) :
    (serializeEntry ts r).length = 8 + r.output.length := by
  simp only [serializeEntry, List.length_append, List.length_cons, List.length_nil]
  omega

lemma runLog_suffix_aux (ts : String) (rs : List LogRecord) :
    ∀ file acc : List String, file <:+ acc → (file = [] → acc = []) →
      (rs.foldl (logCycle ts) file <:+
        rs.foldl (fun a r => linesAppend a (serializeEntry ts r)) acc) ∧
      (rs.foldl (logCycle ts) file = [] →
        rs.foldl (fun a r => linesAppend a (serializeEntry ts r)) acc = []) := by
  induction rs with
  | nil => exact fun file acc h1 h2 => ⟨h1, h2⟩
  | cons r rs ih =>
    intro file acc h1 h2
    simp only [List.foldl_cons]
    refine ih _ _ ?_ ?_
    · exact (trimLogFile_suffix _).trans
        (linesAppend_suffix (serializeEntry ts r) h1 h2)
    · intro hc
      exact absurd hc (trimLogFile_ne_nil (linesAppend_ne_nil (serializeEntry_ne_nil ts r)))

lemma trimLogFile_length_le (xs : List String) : (trimLogFile xs).length ≤ MAX_LINES := by
  unfold trimLogFile
  split
  · rename_i h
    rw [List.length_drop]
    omega
  · rename_i h
    omega

lemma trimLogFile_length_of_gt {xs : List String} (h : xs.length > MAX_LINES) :
    (trimLogFile xs).length = MAX_LINES := by
  unfold trimLogFile
  rw [if_pos h, List.length_drop]
  omega

lemma trimLogFile_of_le {xs : List String} (h : xs.length ≤ MAX_LINES) :
    trimLogFile xs = xs := by
  unfold trimLogFile
  rw [if_neg (by omega)]

lemma linesAppend_length {file add : List String} (hf : file ≠ []) (ha : add ≠ []) :
    (linesAppend file add).length = file.length + add.length - 1 := by
  obtain ⟨f, fs, rfl⟩ := List.exists_cons_of_ne_nil hf
  obtain ⟨a, as, rfl⟩ := List.exists_cons_of_ne_nil ha
  simp only [linesAppend_cons, List.length_append, List.length_cons,
    List.length_dropLast, List.drop_succ_cons, List.drop_zero]
  omega

/-! ### Claims about the ledger file -/

/-- Fixture: a record whose transcript makes its serialized entry exactly
`MAX_LINES` lines long (8 frame lines + 34992 output lines). -/
def bigRecord : LogRecord := ⟨"big", [], List.replicate 34992 "x", some 0⟩

/-- Fixture: a record with a one-line transcript (9 serialized lines). -/
def smallRecord : LogRecord := ⟨"small", [], ["y"], some 0⟩

lemma bigEntry_length : (serializeEntry "" bigRecord).length = 35000 := by
  have h : bigRecord.output.length = 34992 := by
    show (List.replicate 34992 "x").length = 34992
    rw [List.length_replicate]
  rw [serializeEntry_length, h]

lemma smallEntry_length : (serializeEntry "" smallRecord).length = 9 := by
  have h : smallRecord.output.length = 1 := rfl
  rw [serializeEntry_length, h]

lemma runLog_two_eq :
    runLog "" [bigRecord, smallRecord] =
      trimLogFile (linesAppend (trimLogFile (serializeEntry "" bigRecord))
        (serializeEntry "" smallRecord)) := by
  have u1 : runLog "" [bigRecord, smallRecord] =
      List.foldl (logCycle "") [] [bigRecord, smallRecord] := by
    rw [runLog]
  have u2 : List.foldl (logCycle "") [] [bigRecord, smallRecord] =
      logCycle "" (logCycle "" [] bigRecord) smallRecord := by
    rw [List.foldl_cons, List.foldl_cons, List.foldl_nil]
  have u3 : logCycle "" [] bigRecord = trimLogFile (serializeEntry "" bigRecord) := by
    rw [logCycle, linesAppend_nil]
  have u4 : logCycle "" (trimLogFile (serializeEntry "" bigRecord)) smallRecord =
      trimLogFile (linesAppend (trimLogFile (serializeEntry "" bigRecord))
        (serializeEntry "" smallRecord)) := by
    rw [logCycle]
  rw [u1, u2, u3, u4]

lemma bigEntry_trim_id :
    trimLogFile (serializeEntry "" bigRecord) = serializeEntry "" bigRecord :=
  trimLogFile_of_le (by rw [bigEntry_length]; unfold MAX_LINES; omega)

lemma two_entries_length :
    (linesAppend (serializeEntry "" bigRecord) (serializeEntry "" smallRecord)).length =
      35008 := by
  rw [linesAppend_length (serializeEntry_ne_nil _ _) (serializeEntry_ne_nil _ _),
    bigEntry_length, smallEntry_length]

lemma runLog_two_length :
    (runLog "" [bigRecord, smallRecord]).length = 35000 := by
  rw [runLog_two_eq, bigEntry_trim_id,
    trimLogFile_length_of_gt (by rw [two_entries_length]; unfold MAX_LINES; omega)]
  rfl

lemma concat_two_eq :
    concatEntries "" [bigRecord, smallRecord] =
      linesAppend (serializeEntry "" bigRecord) (serializeEntry "" smallRecord) := by
  have v1 : concatEntries "" [bigRecord, smallRecord] =
      List.foldl (fun a r => linesAppend a (serializeEntry "" r)) []
        [bigRecord, smallRecord] := by
    rw [concatEntries]
  have v2 : List.foldl (fun a r => linesAppend a (serializeEntry "" r)) []
        [bigRecord, smallRecord] =
      linesAppend (linesAppend [] (serializeEntry "" bigRecord))
        (serializeEntry "" smallRecord) := by
    rw [List.foldl_cons, List.foldl_cons, List.foldl_nil]
  rw [v1, v2, linesAppend_nil]

lemma concat_one_eq :
    concatEntries "" [smallRecord] = serializeEntry "" smallRecord := by
  have v1 : concatEntries "" [smallRecord] =
      List.foldl (fun a r => linesAppend a (serializeEntry "" r)) [] [smallRecord] := by
    rw [concatEntries]
  have v2 : List.foldl (fun a r => linesAppend a (serializeEntry "" r)) []
        [smallRecord] = linesAppend [] (serializeEntry "" smallRecord) := by
    rw [List.foldl_cons, List.foldl_nil]
  rw [v1, v2, linesAppend_nil]

lemma concat_nil_eq : concatEntries "" ([] : List LogRecord) = [] := by
  rw [concatEntries, List.foldl_nil]

/-- Claim C7 is false on the code: the retention trim works at line
granularity, not entry granularity.  Appending a 35000-line entry followed
by a 9-line entry leaves 35008 lines, and the trim keeps the most recent
35000, cutting the first entry after its 8th line — the resulting file is
not the concatenation of any suffix of the appended entry sequence. -/
theorem trim_cuts_entry_mid_cex :
    ¬ ∃ k, runLog "" [bigRecord, smallRecord] =
      concatEntries "" (List.drop k [bigRecord, smallRecord]) := by
  intro ⟨k, hk⟩
  have hlen := congrArg List.length hk
  rw [runLog_two_length] at hlen
  rcases k with _ | k
  · rw [List.drop_zero, concat_two_eq, two_entries_length] at hlen
    omega
  rcases k with _ | k
  · rw [List.drop_succ_cons, List.drop_zero, concat_one_eq, smallEntry_length] at hlen
    omega
  · rw [List.drop_succ_cons, List.drop_succ_cons, List.drop_nil, concat_nil_eq,
      List.length_nil] at hlen
    omega

/-- Claim C7, amended to what the code guarantees: after any sequence of
append-plus-trim cycles, the log file's content is a line-level suffix of
the concatenation of the serialized appended entries — the trim keeps the
most recent lines and may therefore begin mid-entry; it never invents or
reorders lines. -/
theorem trimmed_log_is_line_suffix_of_entries (ts : String) (rs : List LogRecord) :
    runLog ts rs <:+ concatEntries ts rs :=
  (runLog_suffix_aux ts rs [] [] (List.suffix_refl []) (fun _ => rfl)).1

/-- Claim C8: the retention ceiling is `MAX_LINES = 35000`; after any
append-plus-trim cycle the file holds at most `MAX_LINES` lines — if the
append pushed the line count beyond the ceiling the file is rewritten to
exactly the most recent `MAX_LINES` lines, otherwise it is left unchanged. -/
theorem log_cycle_enforces_ceiling (ts : String) (file : List String) (r : LogRecord) :
    MAX_LINES = 35000 ∧
    (logCycle ts file r).length ≤ MAX_LINES ∧
    ((linesAppend file (serializeEntry ts r)).length > MAX_LINES →
      logCycle ts file r = (linesAppend file (serializeEntry ts r)).drop
        ((linesAppend file (serializeEntry ts r)).length - MAX_LINES) ∧
      (logCycle ts file r).length = MAX_LINES) ∧
    ((linesAppend file (serializeEntry ts r)).length ≤ MAX_LINES →
      logCycle ts file r = linesAppend file (serializeEntry ts r)) := by
  refine ⟨rfl, trimLogFile_length_le _, fun h => ⟨?_, trimLogFile_length_of_gt h⟩,
    fun h => trimLogFile_of_le h⟩
  unfold logCycle trimLogFile
  rw [if_pos h]

/-- Witness for C8: one small entry appended to an empty file stays below
the ceiling and is kept verbatim. -/
theorem log_cycle_enforces_ceiling_witness :
    (linesAppend [] (serializeEntry "" smallRecord)).length ≤ MAX_LINES ∧
    logCycle "" [] smallRecord = linesAppend [] (serializeEntry "" smallRecord) :=
  ⟨by rw [linesAppend_nil, smallEntry_length]; unfold MAX_LINES; omega,
    (log_cycle_enforces_ceiling "" [] smallRecord).2.2.2
      (by rw [linesAppend_nil, smallEntry_length]; unfold MAX_LINES; omega)⟩
